import Mathlib

/-!
Verification of the byteorder stream extension layer (`src/new.rs`).

The repository source under `src/` contains the stream extension traits
`ReadBytesExt` / `WriteBytesExt` and the fill loop `read_full`.  The
`ByteOrder` conversion core (the `BigEndian` / `LittleEndian`
implementations) is referenced (`use ByteOrder;`) but its file is not part
of `src/`, so those conversions are modelled from the specification
(sections 4.1, 6); every such definition carries a doc comment starting
with `Modelled from the spec:`.

Bytes are modelled as `Nat` (with explicit `< 256` hypotheses where byte
validity matters), numeric values as `Nat` / `Int` with explicit bounds,
and IEEE754 floats by their bit patterns (the spec states float
operations are pure bit-casts of the matching unsigned integer
operations, so the bit pattern is the whole observable state).
-/

/-- The two endianness variants of the `ByteOrder` capability. -/
inductive Endian where
  | big
  | little
deriving DecidableEq

/-- Big-endian value of a byte list: byte 0 is most significant. -/
def beReadBytes (buf : List Nat) : Nat :=
  buf.foldl (fun acc b => 256 * acc + b) 0

/-- Little-endian value of a byte list: byte 0 is least significant. -/
def leReadBytes (buf : List Nat) : Nat :=
  buf.foldr (fun b acc => b + 256 * acc) 0

/-- Little-endian encoding of `v` into `w` bytes (value taken mod `256^w`). -/
def leWriteBytes : Nat → Nat → List Nat
  | 0, _ => []
  | w + 1, v => v % 256 :: leWriteBytes w (v / 256)

/-- Big-endian encoding of `v` into `w` bytes (value taken mod `256^w`). -/
def beWriteBytes (w v : Nat) : List Nat :=
  (leWriteBytes w v).reverse

/-- Reinterpret a `w`-byte unsigned bit pattern as two's complement. -/
def toSigned (w u : Nat) : Int :=
  if u < 2 ^ (8 * w - 1) then (u : Int) else (u : Int) - 2 ^ (8 * w)

/-- The `w`-byte unsigned bit pattern of a two's-complement integer. -/
def toUnsigned (w : Nat) (n : Int) : Nat :=
  (n % ((2 : Int) ^ (8 * w))).toNat

/-- Modelled from the spec: §4.1 — generic unsigned decode for a buffer of
exactly the matching byte length; for BigEndian byte 0 is most
significant, for LittleEndian byte 0 is least significant. -/
def ByteOrder.readU (t : Endian) (buf : List Nat) : Nat :=
  match t with
  | Endian.big => beReadBytes buf
  | Endian.little => leReadBytes buf

/-- Modelled from the spec: §4.1 — generic unsigned encode producing a
buffer of exactly `w` bytes, every byte written. -/
def ByteOrder.writeU (t : Endian) (w v : Nat) : List Nat :=
  match t with
  | Endian.big => beWriteBytes w v
  | Endian.little => leWriteBytes w v

/-- Modelled from the spec: §4.1 — `ByteOrder::read_u16`. -/
def ByteOrder.read_u16 (t : Endian) (buf : List Nat) : Nat := ByteOrder.readU t buf

/-- Modelled from the spec: §4.1 — `ByteOrder::read_u32`. -/
def ByteOrder.read_u32 (t : Endian) (buf : List Nat) : Nat := ByteOrder.readU t buf

/-- Modelled from the spec: §4.1 — `ByteOrder::read_u64`. -/
def ByteOrder.read_u64 (t : Endian) (buf : List Nat) : Nat := ByteOrder.readU t buf

/-- Modelled from the spec: §4.1 — signed decode is the bit-cast of the
unsigned decode of the same width. -/
def ByteOrder.read_i16 (t : Endian) (buf : List Nat) : Int :=
  toSigned 2 (ByteOrder.read_u16 t buf)

/-- Modelled from the spec: §4.1 — `ByteOrder::read_i32`. -/
def ByteOrder.read_i32 (t : Endian) (buf : List Nat) : Int :=
  toSigned 4 (ByteOrder.read_u32 t buf)

/-- Modelled from the spec: §4.1 — `ByteOrder::read_i64`. -/
def ByteOrder.read_i64 (t : Endian) (buf : List Nat) : Int :=
  toSigned 8 (ByteOrder.read_u64 t buf)

/-- Modelled from the spec: §4.28 — float decode is the bit-cast of the
matching unsigned decode; the result is the IEEE754 bit pattern. -/
def ByteOrder.read_f32 (t : Endian) (buf : List Nat) : Nat := ByteOrder.read_u32 t buf

/-- Modelled from the spec: §4.28 — `ByteOrder::read_f64` as a bit pattern. -/
def ByteOrder.read_f64 (t : Endian) (buf : List Nat) : Nat := ByteOrder.read_u64 t buf

/-- Modelled from the spec: §4.1 — `ByteOrder::write_u16`. -/
def ByteOrder.write_u16 (t : Endian) (v : Nat) : List Nat := ByteOrder.writeU t 2 v

/-- Modelled from the spec: §4.1 — `ByteOrder::write_u32`. -/
def ByteOrder.write_u32 (t : Endian) (v : Nat) : List Nat := ByteOrder.writeU t 4 v

/-- Modelled from the spec: §4.1 — `ByteOrder::write_u64`. -/
def ByteOrder.write_u64 (t : Endian) (v : Nat) : List Nat := ByteOrder.writeU t 8 v

/-- Modelled from the spec: §4.1 — signed encode writes the two's
complement bit pattern with the unsigned encode of the same width. -/
def ByteOrder.write_i16 (t : Endian) (n : Int) : List Nat :=
  ByteOrder.write_u16 t (toUnsigned 2 n)

/-- Modelled from the spec: §4.1 — `ByteOrder::write_i32`. -/
def ByteOrder.write_i32 (t : Endian) (n : Int) : List Nat :=
  ByteOrder.write_u32 t (toUnsigned 4 n)

/-- Modelled from the spec: §4.1 — `ByteOrder::write_i64`. -/
def ByteOrder.write_i64 (t : Endian) (n : Int) : List Nat :=
  ByteOrder.write_u64 t (toUnsigned 8 n)

/-- Modelled from the spec: §4.28 — float encode writes the IEEE754 bit
pattern with the matching unsigned encode. -/
def ByteOrder.write_f32 (t : Endian) (bits : Nat) : List Nat := ByteOrder.write_u32 t bits

/-- Modelled from the spec: §4.28 — `ByteOrder::write_f64` from a bit pattern. -/
def ByteOrder.write_f64 (t : Endian) (bits : Nat) : List Nat := ByteOrder.write_u64 t bits

/-- Modelled from the spec: §4.1 — `ByteOrder::read_uint(buf, nbytes)`.
The logical buffer is the first `nbytes` bytes of `buf`; for BigEndian
those significant bytes occupy the trailing positions of an 8-byte
scratch area (right-aligned before widening to 64 bits), for
LittleEndian the leading positions. -/
def ByteOrder.read_uint (t : Endian) (buf : List Nat) (nbytes : Nat) : Nat :=
  match t with
  | Endian.big => beReadBytes (List.replicate (8 - nbytes) 0 ++ buf.take nbytes)
  | Endian.little => leReadBytes (buf.take nbytes ++ List.replicate (8 - nbytes) 0)

/-- Modelled from the spec: §4.1 — `ByteOrder::read_int(buf, nbytes)`
sign-extends the `nbytes`-wide unsigned decode from bit `nbytes*8 - 1`. -/
def ByteOrder.read_int (t : Endian) (buf : List Nat) (nbytes : Nat) : Int :=
  toSigned nbytes (ByteOrder.read_uint t buf nbytes)

/-- Modelled from the spec: §4.1 — `ByteOrder::write_uint(nbytes, v)`:
the `nbytes` significant bytes laid out by the variant. -/
def ByteOrder.write_uint (t : Endian) (nbytes v : Nat) : List Nat :=
  ByteOrder.writeU t nbytes v

/-- Modelled from the spec: §4.1 — `ByteOrder::write_int(nbytes, n)`. -/
def ByteOrder.write_int (t : Endian) (nbytes : Nat) (n : Int) : List Nat :=
  ByteOrder.write_uint t nbytes (toUnsigned nbytes n)

theorem leWriteBytes_length (w v : Nat) : (leWriteBytes w v).length = w := by
  induction w generalizing v with
  | zero => rfl
  | succ w ih => simp [leWriteBytes, ih]

theorem beWriteBytes_length (w v : Nat) : (beWriteBytes w v).length = w := by
  simp [beWriteBytes, leWriteBytes_length]

theorem writeU_length (t : Endian) (w v : Nat) : (ByteOrder.writeU t w v).length = w := by
  cases t <;> simp [ByteOrder.writeU, beWriteBytes_length, leWriteBytes_length]

theorem leReadBytes_leWriteBytes (w v : Nat) :
    leReadBytes (leWriteBytes w v) = v % 256 ^ w := by
  induction w generalizing v with
  | zero => simp [leWriteBytes, leReadBytes, Nat.mod_one]
  | succ w ih =>
      have h : v % (256 * 256 ^ w) = v % 256 + 256 * (v / 256 % 256 ^ w) := Nat.mod_mul
      simp [leWriteBytes, leReadBytes] at *
      rw [ih]
      rw [pow_succ, mul_comm (256 ^ w) 256, h]

theorem beReadBytes_append_singleton (l : List Nat) (x : Nat) :
    beReadBytes (l ++ [x]) = 256 * beReadBytes l + x := by
  simp [beReadBytes, List.foldl_append]

theorem beReadBytes_beWriteBytes (w v : Nat) :
    beReadBytes (beWriteBytes w v) = v % 256 ^ w := by
  induction w generalizing v with
  | zero => simp [beWriteBytes, leWriteBytes, beReadBytes, Nat.mod_one]
  | succ w ih =>
      have h : v % (256 * 256 ^ w) = v % 256 + 256 * (v / 256 % 256 ^ w) := Nat.mod_mul
      simp only [beWriteBytes, leWriteBytes, List.reverse_cons]
      rw [beReadBytes_append_singleton]
      have := ih (v / 256)
      simp only [beWriteBytes] at this
      rw [this, pow_succ, mul_comm (256 ^ w) 256, h]
      ring

theorem readU_writeU (t : Endian) (w v : Nat) (hv : v < 256 ^ w) :
    ByteOrder.readU t (ByteOrder.writeU t w v) = v := by
  cases t <;>
    simp [ByteOrder.readU, ByteOrder.writeU, beReadBytes_beWriteBytes,
      leReadBytes_leWriteBytes, Nat.mod_eq_of_lt hv]

theorem beReadBytes_replicate_zero_append (k : Nat) (l : List Nat) :
    beReadBytes (List.replicate k 0 ++ l) = beReadBytes l := by
  induction k with
  | zero => simp
  | succ k ih => simpa [List.replicate_succ, beReadBytes] using ih

theorem leReadBytes_append_replicate_zero (k : Nat) (l : List Nat) :
    leReadBytes (l ++ List.replicate k 0) = leReadBytes l := by
  have hz : leReadBytes (List.replicate k 0) = 0 := by
    induction k with
    | zero => rfl
    | succ k ih => simp [List.replicate_succ, leReadBytes] at *; exact ih
  simp [leReadBytes, List.foldr_append] at *
  rw [hz]

theorem beReadBytes_foldl_lt (l : List Nat) (a : Nat) (h : ∀ b ∈ l, b < 256) :
    List.foldl (fun acc b => 256 * acc + b) a l < (a + 1) * 256 ^ l.length := by
  induction l generalizing a with
  | nil => simp
  | cons x l ih =>
      have hx : x < 256 := h x (by simp)
      have hrec := ih (256 * a + x) (fun b hb => h b (by simp [hb]))
      calc List.foldl (fun acc b => 256 * acc + b) (256 * a + x) l
          < (256 * a + x + 1) * 256 ^ l.length := hrec
        _ ≤ ((a + 1) * 256) * 256 ^ l.length := by
            have : 256 * a + x + 1 ≤ (a + 1) * 256 := by omega
            exact Nat.mul_le_mul_right _ this
        _ = (a + 1) * 256 ^ (x :: l).length := by
            simp [List.length_cons, pow_succ]; ring

theorem beReadBytes_lt (l : List Nat) (h : ∀ b ∈ l, b < 256) :
    beReadBytes l < 256 ^ l.length := by
  have := beReadBytes_foldl_lt l 0 h
  simpa [beReadBytes] using this

theorem leReadBytes_lt (l : List Nat) (h : ∀ b ∈ l, b < 256) :
    leReadBytes l < 256 ^ l.length := by
  induction l with
  | nil => simp [leReadBytes]
  | cons x l ih =>
      have hx : x < 256 := h x (by simp)
      have hrec := ih (fun b hb => h b (by simp [hb]))
      have : leReadBytes (x :: l) = x + 256 * leReadBytes l := by simp [leReadBytes]
      rw [this]
      calc x + 256 * leReadBytes l < 256 + 256 * leReadBytes l := by omega
        _ ≤ 256 + 256 * (256 ^ l.length - 1) := by
            have : leReadBytes l ≤ 256 ^ l.length - 1 := by omega
            exact Nat.add_le_add_left (Nat.mul_le_mul_left _ this) _
        _ ≤ 256 ^ (x :: l).length := by
            have hpos : 1 ≤ 256 ^ l.length := Nat.one_le_pow _ _ (by omega)
            simp [List.length_cons, pow_succ]
            omega

theorem pow256_eq_pow2 (w : Nat) : 256 ^ w = 2 ^ (8 * w) := by
  rw [pow_mul]; norm_num

theorem toSigned_toUnsigned (w : Nat) (n : Int) (hw : 1 ≤ w)
    (h1 : -(2 ^ (8 * w - 1)) ≤ n) (h2 : n < 2 ^ (8 * w - 1)) :
    toSigned w (toUnsigned w n) = n := by
  have hKa : (2 : Int) ^ (8 * w) = 2 * 2 ^ (8 * w - 1) := by
    have hm : 8 * w = (8 * w - 1) + 1 := by omega
    conv_lhs => rw [hm]
    rw [pow_succ]; ring
  have hapos : (0 : Int) < 2 ^ (8 * w - 1) := by positivity
  have hcast : ((2 ^ (8 * w - 1) : Nat) : Int) = 2 ^ (8 * w - 1) := by push_cast; ring
  rcases le_or_lt 0 n with hn | hn
  · have hlt : n < 2 ^ (8 * w) := lt_of_lt_of_le h2 (by rw [hKa]; nlinarith)
    have hmod : n % (2 : Int) ^ (8 * w) = n := Int.emod_eq_of_lt hn hlt
    have htn : ((toUnsigned w n : Nat) : Int) = n := by
      simp [toUnsigned, hmod, Int.toNat_of_nonneg hn]
    have hlt2 : toUnsigned w n < 2 ^ (8 * w - 1) := by
      have : ((toUnsigned w n : Nat) : Int) < ((2 ^ (8 * w - 1) : Nat) : Int) := by
        rw [htn, hcast]; exact h2
      exact_mod_cast this
    simp [toSigned, hlt2, htn]
  · have hnK : 0 ≤ n + 2 ^ (8 * w) := by
      have : -(2 ^ (8 * w)) ≤ n := le_trans (by rw [hKa]; nlinarith) h1
      omega
    have hltK : n + 2 ^ (8 * w) < 2 ^ (8 * w) := by omega
    have hmod : n % (2 : Int) ^ (8 * w) = n + 2 ^ (8 * w) := by
      have h0 : (n + 2 ^ (8 * w) * 1) % (2 : Int) ^ (8 * w) = n % (2 : Int) ^ (8 * w) :=
        Int.add_mul_emod_self_left n (2 ^ (8 * w)) 1
      have h1' : n + 2 ^ (8 * w) * 1 = n + 2 ^ (8 * w) := by ring
      rw [h1'] at h0
      rw [← h0, Int.emod_eq_of_lt hnK hltK]
    have htn : ((toUnsigned w n : Nat) : Int) = n + 2 ^ (8 * w) := by
      simp [toUnsigned, hmod, Int.toNat_of_nonneg hnK]
    have hge : ¬ toUnsigned w n < 2 ^ (8 * w - 1) := by
      intro hcon
      have hcon2 : ((toUnsigned w n : Nat) : Int) < ((2 ^ (8 * w - 1) : Nat) : Int) := by
        exact_mod_cast hcon
      rw [htn, hcast] at hcon2
      nlinarith [h1]
    simp [toSigned, hge, htn]

/-- One response of the stream collaborator to one `read` call: either a
successful read delivering some bytes (an empty delivery is how a reader
signals end-of-stream) or an I/O failure, identified by a numeric code. -/
inductive ReadResp where
  | chunk (bytes : List Nat)
  | err (e : Nat)
deriving DecidableEq

/-- In-place write of `bytes` into `buf` starting at offset `n`, the
effect of the collaborator filling the slice `buf[n..]`: the first `n`
elements are kept, then `bytes` overwrite the following positions, and
whatever they do not cover is kept; the buffer length never changes. -/
def writeAt : List Nat → Nat → List Nat → List Nat
  | [], _, _ => []
  | x :: buf, 0, [] => x :: buf
  | _ :: buf, 0, b :: bs => b :: writeAt buf 0 bs
  | x :: buf, n + 1, bs => x :: writeAt buf n bs

/-- The fill loop of `read_full` from `src/new.rs`:
`while n < buf.len() { n += try!(rdr.read(&mut buf[n..])); }`, unrolled
over the collaborator's response trace.  `none` means the trace was
exhausted with the loop still running; `some (Except.error e, rest)`
propagates the collaborator's failure; `some (Except.ok buf, rest)`
returns the filled buffer.  In each case `rest` is the part of the trace
the loop did not consume (the state of the stream afterwards). -/
def read_full : List ReadResp → List Nat → Nat →
    Option (Except Nat (List Nat) × List ReadResp)
  | [], buf, n =>
      if n < buf.length then none else some (Except.ok buf, [])
  | ReadResp.err e :: rest, buf, n =>
      if n < buf.length then some (Except.error e, rest)
      else some (Except.ok buf, ReadResp.err e :: rest)
  | ReadResp.chunk bytes :: rest, buf, n =>
      if n < buf.length then read_full rest (writeAt buf n bytes) (n + bytes.length)
      else some (Except.ok buf, ReadResp.chunk bytes :: rest)

theorem writeAt_nil (buf : List Nat) (n : Nat) : writeAt buf n [] = buf := by
  induction buf generalizing n with
  | nil => rfl
  | cons x buf ih =>
      cases n with
      | zero => rfl
      | succ n => simp [writeAt, ih]

theorem writeAt_length (buf : List Nat) (n : Nat) (bytes : List Nat) :
    (writeAt buf n bytes).length = buf.length := by
  induction buf generalizing n bytes with
  | nil => cases bytes <;> rfl
  | cons x buf ih =>
      cases bytes with
      | nil => simp [writeAt_nil]
      | cons b bs =>
          cases n with
          | zero => simp [writeAt, ih]
          | succ n => simp [writeAt, ih]

theorem writeAt_zero_full (buf bytes : List Nat) (h : bytes.length = buf.length) :
    writeAt buf 0 bytes = bytes := by
  induction bytes generalizing buf with
  | nil =>
      cases buf with
      | nil => rfl
      | cons x buf => simp at h
  | cons b bs ih =>
      cases buf with
      | nil => simp at h
      | cons x buf =>
          simp only [List.length_cons] at h
          simp [writeAt, ih buf (by omega)]

theorem writeAt_cons (buf : List Nat) (n : Nat) (b : Nat) (bs : List Nat) :
    writeAt (writeAt buf n [b]) (n + 1) bs = writeAt buf n (b :: bs) := by
  induction buf generalizing n with
  | nil => cases bs <;> rfl
  | cons x buf ih =>
      cases n with
      | zero => cases bs <;> simp [writeAt, writeAt_nil]
      | succ n => cases bs <;> simp [writeAt, writeAt_nil, ih]

theorem read_full_done (resps : List ReadResp) (buf : List Nat) (n : Nat)
    (h : ¬ n < buf.length) :
    read_full resps buf n = some (Except.ok buf, resps) := by
  cases resps with
  | nil => simp [read_full, h]
  | cons r rest => cases r <;> simp [read_full, h]

theorem read_full_error_before_fill (pre : List (List Nat)) (buf : List Nat)
    (n e : Nat) (rest : List ReadResp)
    (h : n + (pre.map List.length).sum < buf.length) :
    read_full (pre.map ReadResp.chunk ++ ReadResp.err e :: rest) buf n =
      some (Except.error e, rest) := by
  induction pre generalizing buf n with
  | nil =>
      simp only [List.map_nil, List.nil_append]
      simp only [List.map_nil, List.sum_nil, Nat.add_zero] at h
      simp [read_full, h]
  | cons bs pre ih =>
      simp only [List.map_cons, List.sum_cons] at h
      have hn : n < buf.length := by omega
      simp only [List.map_cons, List.cons_append, read_full, if_pos hn]
      exact ih (writeAt buf n bs) (n + bs.length) (by rw [writeAt_length]; omega)

theorem read_full_one_at_a_time (bs : List Nat) (rest : List ReadResp)
    (buf : List Nat) (n : Nat) (h : n + bs.length ≤ buf.length) :
    read_full (bs.map (fun b => ReadResp.chunk [b]) ++ rest) buf n =
      read_full rest (writeAt buf n bs) (n + bs.length) := by
  induction bs generalizing buf n with
  | nil => simp [writeAt_nil]
  | cons b bs ih =>
      simp only [List.length_cons] at h
      have hn : n < buf.length := by omega
      have hstep := ih (writeAt buf n [b]) (n + 1)
        (by rw [writeAt_length]; omega)
      calc read_full ((b :: bs).map (fun b => ReadResp.chunk [b]) ++ rest) buf n
          = read_full (bs.map (fun b => ReadResp.chunk [b]) ++ rest)
              (writeAt buf n [b]) (n + 1) := by
            simp [read_full, hn]
        _ = read_full rest (writeAt (writeAt buf n [b]) (n + 1) bs)
              (n + 1 + bs.length) := hstep
        _ = read_full rest (writeAt buf n (b :: bs)) (n + (b :: bs).length) := by
            rw [writeAt_cons]
            congr 1
            simp
            omega

theorem read_full_single_chunk (bs buf : List Nat) (h : bs.length = buf.length)
    (h0 : 0 < buf.length) :
    read_full [ReadResp.chunk bs] buf 0 = some (Except.ok bs, []) := by
  simp only [read_full, if_pos h0]
  rw [writeAt_zero_full buf bs h]
  simp

theorem read_full_one_per_call (bs buf : List Nat) (h : bs.length = buf.length) :
    read_full (bs.map (fun b => ReadResp.chunk [b])) buf 0 = some (Except.ok bs, []) := by
  have := read_full_one_at_a_time bs [] buf 0 (by omega)
  simp only [List.append_nil] at this
  rw [this, writeAt_zero_full buf bs h]
  exact read_full_done [] bs (0 + bs.length) (by omega)

theorem writeAt_append (buf : List Nat) (n : Nat) (c d : List Nat) :
    writeAt buf n (c ++ d) = writeAt (writeAt buf n c) (n + c.length) d := by
  induction c generalizing buf n with
  | nil => simp [writeAt_nil]
  | cons b c ih =>
      rw [List.cons_append, ← writeAt_cons, ih, writeAt_cons]
      congr 1
      simp
      omega

theorem read_full_chunked (cs : List (List Nat)) (rest : List ReadResp)
    (buf : List Nat) (n : Nat) (hne : ∀ c ∈ cs, c ≠ [])
    (h : n + cs.flatten.length ≤ buf.length) :
    read_full (cs.map ReadResp.chunk ++ rest) buf n =
      read_full rest (writeAt buf n cs.flatten) (n + cs.flatten.length) := by
  induction cs generalizing buf n with
  | nil => simp [writeAt_nil]
  | cons c cs ih =>
      have hc : c ≠ [] := hne c (by simp)
      have hclen : 1 ≤ c.length := by
        cases c with
        | nil => exact absurd rfl hc
        | cons x xs => simp
      simp only [List.flatten_cons, List.length_append] at h
      have hn : n < buf.length := by omega
      simp only [List.map_cons, List.cons_append, read_full, if_pos hn,
        List.append_eq]
      rw [ih (writeAt buf n c) (n + c.length) (fun d hd => hne d (by simp [hd]))
        (by rw [writeAt_length]; omega)]
      rw [List.flatten_cons, writeAt_append]
      congr 1
      simp
      omega

theorem read_full_chunks_fill (cs : List (List Nat)) (w : Nat)
    (hne : ∀ c ∈ cs, c ≠ []) (hw : cs.flatten.length = w) :
    read_full (cs.map ReadResp.chunk) (List.replicate w 0) 0 =
      some (Except.ok cs.flatten, []) := by
  have h := read_full_chunked cs [] (List.replicate w 0) 0 hne (by simp [hw])
  simp only [List.append_nil] at h
  rw [h, writeAt_zero_full _ _ (by simp [hw])]
  exact read_full_done [] cs.flatten (0 + cs.flatten.length) (by simp [hw])

/-- Outcome of one stream read operation: a decoded value with the
remaining collaborator trace, a propagated I/O failure with the remaining
trace, a fill loop still running when the trace ended, or a panic from an
out-of-bounds slice. -/
inductive RResult (α : Type) where
  | ok (v : α) (rest : List ReadResp)
  | err (e : Nat) (rest : List ReadResp)
  | looping
  | panicked
deriving DecidableEq

theorem read_full_eof_forever (k : Nat) (buf : List Nat) (n : Nat)
    (h : n < buf.length) :
    read_full (List.replicate k (ReadResp.chunk [])) buf n = none := by
  induction k with
  | zero => simp [read_full, h]
  | succ k ih =>
      simp only [List.replicate_succ, read_full, if_pos h, writeAt_nil, Nat.add_zero]
      exact ih

/-- From `ReadBytesExt::read_u8` in `src/new.rs`: 1-byte fill, then
`buf[0]`, no endianness parameter. -/
def ReadBytesExt.read_u8 (resps : List ReadResp) : RResult Nat :=
  match read_full resps (List.replicate 1 0) 0 with
  | none => RResult.looping
  | some (Except.error e, rest) => RResult.err e rest
  | some (Except.ok buf, rest) => RResult.ok (buf.getD 0 0) rest

/-- From `ReadBytesExt::read_i8` in `src/new.rs`: `buf[0] as i8`. -/
def ReadBytesExt.read_i8 (resps : List ReadResp) : RResult Int :=
  match read_full resps (List.replicate 1 0) 0 with
  | none => RResult.looping
  | some (Except.error e, rest) => RResult.err e rest
  | some (Except.ok buf, rest) => RResult.ok (toSigned 1 (buf.getD 0 0)) rest

/-- From `ReadBytesExt::read_u16` in `src/new.rs`: zero 2-byte buffer,
`try!(read_full(..))`, then delegate to the ByteOrder decode. -/
def ReadBytesExt.read_u16 (t : Endian) (resps : List ReadResp) : RResult Nat :=
  match read_full resps (List.replicate 2 0) 0 with
  | none => RResult.looping
  | some (Except.error e, rest) => RResult.err e rest
  | some (Except.ok buf, rest) => RResult.ok (ByteOrder.read_u16 t buf) rest

/-- From `ReadBytesExt::read_i16` in `src/new.rs`. -/
def ReadBytesExt.read_i16 (t : Endian) (resps : List ReadResp) : RResult Int :=
  match read_full resps (List.replicate 2 0) 0 with
  | none => RResult.looping
  | some (Except.error e, rest) => RResult.err e rest
  | some (Except.ok buf, rest) => RResult.ok (ByteOrder.read_i16 t buf) rest

/-- From `ReadBytesExt::read_u32` in `src/new.rs`. -/
def ReadBytesExt.read_u32 (t : Endian) (resps : List ReadResp) : RResult Nat :=
  match read_full resps (List.replicate 4 0) 0 with
  | none => RResult.looping
  | some (Except.error e, rest) => RResult.err e rest
  | some (Except.ok buf, rest) => RResult.ok (ByteOrder.read_u32 t buf) rest

/-- From `ReadBytesExt::read_i32` in `src/new.rs`. -/
def ReadBytesExt.read_i32 (t : Endian) (resps : List ReadResp) : RResult Int :=
  match read_full resps (List.replicate 4 0) 0 with
  | none => RResult.looping
  | some (Except.error e, rest) => RResult.err e rest
  | some (Except.ok buf, rest) => RResult.ok (ByteOrder.read_i32 t buf) rest

/-- From `ReadBytesExt::read_u64` in `src/new.rs`. -/
def ReadBytesExt.read_u64 (t : Endian) (resps : List ReadResp) : RResult Nat :=
  match read_full resps (List.replicate 8 0) 0 with
  | none => RResult.looping
  | some (Except.error e, rest) => RResult.err e rest
  | some (Except.ok buf, rest) => RResult.ok (ByteOrder.read_u64 t buf) rest

/-- From `ReadBytesExt::read_i64` in `src/new.rs`. -/
def ReadBytesExt.read_i64 (t : Endian) (resps : List ReadResp) : RResult Int :=
  match read_full resps (List.replicate 8 0) 0 with
  | none => RResult.looping
  | some (Except.error e, rest) => RResult.err e rest
  | some (Except.ok buf, rest) => RResult.ok (ByteOrder.read_i64 t buf) rest

/-- From `ReadBytesExt::read_f32` in `src/new.rs` (bit pattern). -/
def ReadBytesExt.read_f32 (t : Endian) (resps : List ReadResp) : RResult Nat :=
  match read_full resps (List.replicate 4 0) 0 with
  | none => RResult.looping
  | some (Except.error e, rest) => RResult.err e rest
  | some (Except.ok buf, rest) => RResult.ok (ByteOrder.read_f32 t buf) rest

/-- From `ReadBytesExt::read_f64` in `src/new.rs` (bit pattern). -/
def ReadBytesExt.read_f64 (t : Endian) (resps : List ReadResp) : RResult Nat :=
  match read_full resps (List.replicate 8 0) 0 with
  | none => RResult.looping
  | some (Except.error e, rest) => RResult.err e rest
  | some (Except.ok buf, rest) => RResult.ok (ByteOrder.read_f64 t buf) rest

/-- The 8-byte scratch buffer of `read_uint`/`read_int` in `src/new.rs`
after the fill of its sub-slice `buf[0..nbytes]`: slicing panics when
`nbytes > 8`; otherwise the fill writes the leading `nbytes` positions
and the trailing `8 - nbytes` positions keep their zero initialisation. -/
def readUintScratch (nbytes : Nat) (resps : List ReadResp) : RResult (List Nat) :=
  if nbytes ≤ 8 then
    match read_full resps (List.replicate nbytes 0) 0 with
    | none => RResult.looping
    | some (Except.error e, rest) => RResult.err e rest
    | some (Except.ok sub, rest) => RResult.ok (sub ++ List.replicate (8 - nbytes) 0) rest
  else RResult.panicked

/-- From `ReadBytesExt::read_uint` in `src/new.rs`: fill `buf[0..nbytes]`
of a zero 8-byte buffer, then `T::read_uint(&buf, nbytes)`. -/
def ReadBytesExt.read_uint (t : Endian) (nbytes : Nat) (resps : List ReadResp) :
    RResult Nat :=
  match readUintScratch nbytes resps with
  | RResult.ok buf rest => RResult.ok (ByteOrder.read_uint t buf nbytes) rest
  | RResult.err e rest => RResult.err e rest
  | RResult.looping => RResult.looping
  | RResult.panicked => RResult.panicked

/-- From `ReadBytesExt::read_int` in `src/new.rs`. -/
def ReadBytesExt.read_int (t : Endian) (nbytes : Nat) (resps : List ReadResp) :
    RResult Int :=
  match readUintScratch nbytes resps with
  | RResult.ok buf rest => RResult.ok (ByteOrder.read_int t buf nbytes) rest
  | RResult.err e rest => RResult.err e rest
  | RResult.looping => RResult.looping
  | RResult.panicked => RResult.panicked

/-- State of the byte-stream sink collaborator: the bytes it has accepted
so far, and its planned behavior, one response per `write_all` call
(`none` = accept the whole buffer, `some e` = fail with code `e`; an
exhausted plan accepts, which models the infallible in-memory sink). -/
structure WState where
  sent : List Nat
  behav : List (Option Nat)
deriving DecidableEq

/-- The collaborator's write-all contract: a single call either accepts
the entire buffer or fails; there is no partial acceptance. -/
def write_all (s : WState) (bytes : List Nat) : Except Nat WState :=
  match s.behav with
  | [] => Except.ok ⟨s.sent ++ bytes, []⟩
  | none :: rest => Except.ok ⟨s.sent ++ bytes, rest⟩
  | some e :: _ => Except.error e

/-- From `WriteBytesExt::write_u8` in `src/new.rs`: `self.write_all(&[n])`. -/
def WriteBytesExt.write_u8 (n : Nat) (s : WState) : Except Nat WState :=
  write_all s [n]

/-- From `WriteBytesExt::write_i8` in `src/new.rs`:
`self.write_all(&[n as u8])`. -/
def WriteBytesExt.write_i8 (n : Int) (s : WState) : Except Nat WState :=
  write_all s [toUnsigned 1 n]

/-- From `WriteBytesExt::write_u16` in `src/new.rs`: encode into a local
2-byte buffer with the ByteOrder encode, then one `write_all` call. -/
def WriteBytesExt.write_u16 (t : Endian) (n : Nat) (s : WState) : Except Nat WState :=
  write_all s (ByteOrder.write_u16 t n)

/-- From `WriteBytesExt::write_i16` in `src/new.rs`. -/
def WriteBytesExt.write_i16 (t : Endian) (n : Int) (s : WState) : Except Nat WState :=
  write_all s (ByteOrder.write_i16 t n)

/-- From `WriteBytesExt::write_u32` in `src/new.rs`. -/
def WriteBytesExt.write_u32 (t : Endian) (n : Nat) (s : WState) : Except Nat WState :=
  write_all s (ByteOrder.write_u32 t n)

/-- From `WriteBytesExt::write_i32` in `src/new.rs`. -/
def WriteBytesExt.write_i32 (t : Endian) (n : Int) (s : WState) : Except Nat WState :=
  write_all s (ByteOrder.write_i32 t n)

/-- From `WriteBytesExt::write_u64` in `src/new.rs`. -/
def WriteBytesExt.write_u64 (t : Endian) (n : Nat) (s : WState) : Except Nat WState :=
  write_all s (ByteOrder.write_u64 t n)

/-- From `WriteBytesExt::write_i64` in `src/new.rs`. -/
def WriteBytesExt.write_i64 (t : Endian) (n : Int) (s : WState) : Except Nat WState :=
  write_all s (ByteOrder.write_i64 t n)

/-- From `WriteBytesExt::write_f32` in `src/new.rs` (bit pattern). -/
def WriteBytesExt.write_f32 (t : Endian) (bits : Nat) (s : WState) : Except Nat WState :=
  write_all s (ByteOrder.write_f32 t bits)

/-- From `WriteBytesExt::write_f64` in `src/new.rs` (bit pattern). -/
def WriteBytesExt.write_f64 (t : Endian) (bits : Nat) (s : WState) : Except Nat WState :=
  write_all s (ByteOrder.write_f64 t bits)

/-- Modelled from the spec: §6 lists `write_uint(nbytes)` among the
exposed stream operations and §4.3 gives their uniform shape (encode into
a local `nbytes`-long buffer via the matching ByteOrder write operation,
then one write-all call); this method is absent from `src/new.rs`. -/
def WriteBytesExt.write_uint (t : Endian) (nbytes n : Nat) (s : WState) :
    Except Nat WState :=
  write_all s (ByteOrder.write_uint t nbytes n)

/-- Modelled from the spec: §6 lists `write_int(nbytes)` among the exposed
stream operations; absent from `src/new.rs`, shaped per §4.3. -/
def WriteBytesExt.write_int (t : Endian) (nbytes : Nat) (n : Int) (s : WState) :
    Except Nat WState :=
  write_all s (ByteOrder.write_int t nbytes n)

theorem toUnsigned_lt (w : Nat) (n : Int) : toUnsigned w n < 2 ^ (8 * w) := by
  unfold toUnsigned
  have hpos : (0 : Int) < 2 ^ (8 * w) := by positivity
  have h1 : n % (2 : Int) ^ (8 * w) < 2 ^ (8 * w) := Int.emod_lt_of_pos n hpos
  have h2 : 0 ≤ n % (2 : Int) ^ (8 * w) := Int.emod_nonneg n (ne_of_gt hpos)
  have hcastK : (((2 : Nat) ^ (8 * w) : Nat) : Int) = (2 : Int) ^ (8 * w) := by
    push_cast; ring
  rw [← hcastK] at h1
  generalize hr : n % (2 : Int) ^ (8 * w) = r at h1 h2 ⊢
  generalize hk : (2 : Nat) ^ (8 * w) = K at h1 ⊢
  omega

theorem toSigned_bounds (w u : Nat) (hw : 1 ≤ w) (hu : u < 2 ^ (8 * w)) :
    -((2 : Int) ^ (8 * w - 1)) ≤ toSigned w u ∧
    toSigned w u < (2 : Int) ^ (8 * w - 1) ∧
    toSigned w u % ((2 : Int) ^ (8 * w)) = (u : Int) % (2 : Int) ^ (8 * w) := by
  have hKa : (2 : Int) ^ (8 * w) = 2 * 2 ^ (8 * w - 1) := by
    have hm : 8 * w = (8 * w - 1) + 1 := by omega
    conv_lhs => rw [hm]
    rw [pow_succ]; ring
  have hcast : ((2 ^ (8 * w - 1) : Nat) : Int) = 2 ^ (8 * w - 1) := by push_cast; ring
  have hcastK : ((2 ^ (8 * w) : Nat) : Int) = 2 ^ (8 * w) := by push_cast; ring
  have hapos : (0 : Int) < 2 ^ (8 * w - 1) := by positivity
  have hun : (0 : Int) ≤ (u : Int) := Int.natCast_nonneg u
  unfold toSigned
  by_cases h : u < 2 ^ (8 * w - 1)
  · rw [if_pos h]
    have hcu : (u : Int) < 2 ^ (8 * w - 1) := by
      rw [← hcast]; exact_mod_cast h
    exact ⟨by linarith, hcu, rfl⟩
  · rw [if_neg h]
    have hge : 2 ^ (8 * w - 1) ≤ u := Nat.le_of_not_lt h
    have hcu : (2 : Int) ^ (8 * w - 1) ≤ (u : Int) := by
      rw [← hcast]; exact_mod_cast hge
    have hcuK : (u : Int) < 2 ^ (8 * w) := by
      rw [← hcastK]; exact_mod_cast hu
    refine ⟨by linarith, by linarith, ?_⟩
    rw [Int.sub_emod, Int.emod_self, sub_zero, Int.emod_emod_of_dvd]
    exact dvd_refl _

theorem read_uint_lt (t : Endian) (buf : List Nat) (nb : Nat)
    (hbytes : ∀ b ∈ buf, b < 256) :
    ByteOrder.read_uint t buf nb < 2 ^ (8 * nb) := by
  rw [← pow256_eq_pow2]
  have htb : ∀ b ∈ buf.take nb, b < 256 := fun b hb => hbytes b (List.take_subset nb buf hb)
  have hlen : (buf.take nb).length ≤ nb := by simp
  have hmono : (256 : Nat) ^ (buf.take nb).length ≤ 256 ^ nb :=
    Nat.pow_le_pow_right (by omega) hlen
  cases t with
  | big =>
      simp only [ByteOrder.read_uint]
      rw [beReadBytes_replicate_zero_append]
      exact lt_of_lt_of_le (beReadBytes_lt _ htb) hmono
  | little =>
      simp only [ByteOrder.read_uint]
      rw [leReadBytes_append_replicate_zero]
      exact lt_of_lt_of_le (leReadBytes_lt _ htb) hmono

theorem read_full_enc (t : Endian) (w v : Nat) (hw : 0 < w) :
    read_full [ReadResp.chunk (ByteOrder.writeU t w v)] (List.replicate w 0) 0 =
      some (Except.ok (ByteOrder.writeU t w v), []) :=
  read_full_single_chunk _ _ (by simp [writeU_length]) (by simp [hw])

theorem read_uint_writeU (t : Endian) (nb v : Nat) (hv : v < 256 ^ nb) :
    ByteOrder.read_uint t (ByteOrder.writeU t nb v ++ List.replicate (8 - nb) 0) nb = v := by
  cases t with
  | big =>
      have htake : (beWriteBytes nb v ++ List.replicate (8 - nb) 0).take nb =
          beWriteBytes nb v := List.take_left' (beWriteBytes_length nb v)
      simp only [ByteOrder.read_uint, ByteOrder.writeU, htake]
      rw [beReadBytes_replicate_zero_append, beReadBytes_beWriteBytes,
        Nat.mod_eq_of_lt hv]
  | little =>
      have htake : (leWriteBytes nb v ++ List.replicate (8 - nb) 0).take nb =
          leWriteBytes nb v := List.take_left' (leWriteBytes_length nb v)
      simp only [ByteOrder.read_uint, ByteOrder.writeU, htake]
      rw [leReadBytes_append_replicate_zero, leReadBytes_leWriteBytes,
        Nat.mod_eq_of_lt hv]

/-- C7: reading two consecutive big-endian u16 values from a stream
holding bytes [0x02, 0x05, 0x03, 0x00] yields 517 then 768 (the second
read starts from the trace the first one left); conversely writing the
big-endian u16 values 517 then 768 into an empty in-memory sink yields
exactly those four bytes. -/
theorem claim_C7_concrete_vectors :
    ReadBytesExt.read_u16 Endian.big [ReadResp.chunk [2, 5], ReadResp.chunk [3, 0]] =
      RResult.ok 517 [ReadResp.chunk [3, 0]] ∧
    ReadBytesExt.read_u16 Endian.big [ReadResp.chunk [3, 0]] = RResult.ok 768 [] ∧
    WriteBytesExt.write_u16 Endian.big 517 ⟨[], []⟩ = Except.ok ⟨[2, 5], []⟩ ∧
    WriteBytesExt.write_u16 Endian.big 768 ⟨[2, 5], []⟩ =
      Except.ok ⟨[2, 5, 3, 0], []⟩ := by
  refine ⟨by decide, by decide, rfl, rfl⟩

/-- C2 (failing-input evidence): the fill loop of `read_full` has no
end-of-stream check, so against a collaborator that signals end-of-stream
by returning 0 bytes on every call, no number `k` of loop iterations ever
produces a result — the offset never advances and the loop runs forever
instead of surfacing an I/O failure, for `read_u16` as for the raw fill. -/
theorem claim_C2_eof_never_terminates (k : Nat) (t : Endian) :
    read_full (List.replicate k (ReadResp.chunk [])) (List.replicate 2 0) 0 = none ∧
    ReadBytesExt.read_u16 t (List.replicate k (ReadResp.chunk [])) = RResult.looping := by
  have h := read_full_eof_forever k (List.replicate 2 0) 0 (by simp)
  refine ⟨h, ?_⟩
  simp only [ReadBytesExt.read_u16, h]

/-- C3 (counterexample): for `read_uint` with nbytes = 1 on a BigEndian
read of the byte 0xFF, the 8-byte scratch buffer handed to the ByteOrder
decode holds the significant byte in its leading position — it is
[255,0,0,0,0,0,0,0], not the right-aligned [0,0,0,0,0,0,0,255] the claim
asserts for BigEndian (the fill target `buf[0..nbytes]` does not depend
on the endianness variant at all). -/
theorem claim_C3_counterexample :
    readUintScratch 1 [ReadResp.chunk [255]] =
      RResult.ok [255, 0, 0, 0, 0, 0, 0, 0] [] ∧
    ¬ readUintScratch 1 [ReadResp.chunk [255]] =
        RResult.ok [0, 0, 0, 0, 0, 0, 0, 255] [] := by
  refine ⟨by decide, by decide⟩

/-- C3 (amended): for nbytes in [1,8], `read_uint`/`read_int` place the
nbytes stream bytes into the leading positions `buf[0..nbytes]` of the
zero-initialized 8-byte buffer regardless of the endianness variant, and
the ByteOrder decode then treats exactly those leading nbytes bytes as
the significant ones (right-aligning them internally for BigEndian). -/
theorem claim_C3_amended (nb : Nat) (bs : List Nat) (t : Endian)
    (h1 : 1 ≤ nb) (h8 : nb ≤ 8) (hlen : bs.length = nb) :
    readUintScratch nb [ReadResp.chunk bs] =
      RResult.ok (bs ++ List.replicate (8 - nb) 0) [] ∧
    ByteOrder.read_uint t (bs ++ List.replicate (8 - nb) 0) nb =
      ByteOrder.readU t bs := by
  constructor
  · unfold readUintScratch
    rw [if_pos h8,
      read_full_single_chunk bs (List.replicate nb 0) (by simp [hlen]) (by simp; omega)]
  · have htake : (bs ++ List.replicate (8 - nb) 0).take nb = bs := List.take_left' hlen
    cases t with
    | big =>
        simp only [ByteOrder.read_uint, ByteOrder.readU, htake]
        exact beReadBytes_replicate_zero_append _ _
    | little =>
        simp only [ByteOrder.read_uint, ByteOrder.readU, htake]
        exact leReadBytes_append_replicate_zero _ _

/-- C3 (amended) witness at nbytes = 2, bytes [171, 205]. -/
theorem claim_C3_amended_witness :
    readUintScratch 2 [ReadResp.chunk [171, 205]] =
      RResult.ok [171, 205, 0, 0, 0, 0, 0, 0] [] :=
  (claim_C3_amended 2 [171, 205] Endian.big (by decide) (by decide) (by decide)).1

/-- C10: for nbytes in [1,8] the slice `buf[0..nbytes]` of the 8-byte
scratch buffer is in bounds, so `read_uint`/`read_int` never reach the
panic branch, whatever the collaborator does; for nbytes > 8 the slicing
panics (before any read) rather than returning an error value. -/
theorem claim_C10_slice_in_bounds (t : Endian) (nbytes : Nat) (resps : List ReadResp)
    (_h1 : 1 ≤ nbytes) (h8 : nbytes ≤ 8) :
    (ReadBytesExt.read_uint t nbytes resps ≠ RResult.panicked ∧
     ReadBytesExt.read_int t nbytes resps ≠ RResult.panicked) ∧
    ∀ m, 8 < m →
      ReadBytesExt.read_uint t m resps = RResult.panicked ∧
      ReadBytesExt.read_int t m resps = RResult.panicked := by
  have hscratch : readUintScratch nbytes resps ≠ RResult.panicked := by
    unfold readUintScratch
    rw [if_pos h8]
    cases hrf : read_full resps (List.replicate nbytes 0) 0 with
    | none => simp
    | some p =>
        rcases p with ⟨r, rest⟩
        cases r <;> simp
  refine ⟨⟨?_, ?_⟩, ?_⟩
  · unfold ReadBytesExt.read_uint
    cases hs : readUintScratch nbytes resps <;> simp
    exact hscratch hs
  · unfold ReadBytesExt.read_int
    cases hs : readUintScratch nbytes resps <;> simp
    exact hscratch hs
  · intro m hm
    have hnot : ¬ m ≤ 8 := by omega
    unfold ReadBytesExt.read_uint ReadBytesExt.read_int readUintScratch
    rw [if_neg hnot]
    exact ⟨rfl, rfl⟩

/-- C10 witness at nbytes = 1 against the empty trace (and m = 9). -/
theorem claim_C10_witness :
    (ReadBytesExt.read_uint Endian.big 1 [] ≠ RResult.panicked ∧
     ReadBytesExt.read_int Endian.big 1 [] ≠ RResult.panicked) ∧
    ReadBytesExt.read_uint Endian.big 9 [] = RResult.panicked ∧
    ReadBytesExt.read_int Endian.big 9 [] = RResult.panicked := by
  have h := claim_C10_slice_in_bounds Endian.big 1 [] (by decide) (by decide)
  exact ⟨h.1, h.2 9 (by decide)⟩

/-- C9: a failure during a fill is not atomic with respect to the
collaborator: whatever bytes earlier successful calls delivered, the
result is only the error, the partially filled buffer is discarded, and
the stream state afterwards is exactly the trace after the failing call —
the earlier deliveries stay consumed, with no roll-back.  Shown for the
raw fill with an arbitrary prefix of deliveries, and for `read_u32` after
a one-byte delivery. -/
theorem claim_C9_error_discards_consumed_bytes (t : Endian) (pre : List (List Nat))
    (b e : Nat) (rest : List ReadResp) (buf : List Nat) (n : Nat)
    (h : n + (pre.map List.length).sum < buf.length) :
    read_full (pre.map ReadResp.chunk ++ ReadResp.err e :: rest) buf n =
      some (Except.error e, rest) ∧
    ReadBytesExt.read_u32 t (ReadResp.chunk [b] :: ReadResp.err e :: rest) =
      RResult.err e rest := by
  refine ⟨read_full_error_before_fill pre buf n e rest h, ?_⟩
  unfold ReadBytesExt.read_u32
  have h2 := read_full_error_before_fill [[b]] (List.replicate 4 0) 0 e rest (by simp)
  simp only [List.map_cons, List.map_nil, List.cons_append, List.nil_append] at h2
  rw [h2]

/-- C9 witness: one byte delivered, then failure 7. -/
theorem claim_C9_witness :
    ReadBytesExt.read_u32 Endian.big [ReadResp.chunk [9], ReadResp.err 7] =
      RResult.err 7 [] :=
  (claim_C9_error_discards_consumed_bytes Endian.big [[9]] 9 7 []
    (List.replicate 4 0) 0 (by decide)).2

/-- C4: whenever the collaborator fails with error `e` after delivering
fewer bytes than the fixed width of the operation — any number of
successful deliveries totalling anything below that width — the
operation returns exactly that failure and no decoded value; shown for
all ten multi-byte operations, each under only its own width bound. -/
theorem claim_C4_error_propagation (t : Endian) (pre : List (List Nat)) (e : Nat)
    (rest : List ReadResp) (nb : Nat) (hnb8 : nb ≤ 8) :
    ((pre.map List.length).sum < 2 →
      ReadBytesExt.read_u16 t (pre.map ReadResp.chunk ++ ReadResp.err e :: rest) =
        RResult.err e rest ∧
      ReadBytesExt.read_i16 t (pre.map ReadResp.chunk ++ ReadResp.err e :: rest) =
        RResult.err e rest) ∧
    ((pre.map List.length).sum < 4 →
      ReadBytesExt.read_u32 t (pre.map ReadResp.chunk ++ ReadResp.err e :: rest) =
        RResult.err e rest ∧
      ReadBytesExt.read_i32 t (pre.map ReadResp.chunk ++ ReadResp.err e :: rest) =
        RResult.err e rest ∧
      ReadBytesExt.read_f32 t (pre.map ReadResp.chunk ++ ReadResp.err e :: rest) =
        RResult.err e rest) ∧
    ((pre.map List.length).sum < 8 →
      ReadBytesExt.read_u64 t (pre.map ReadResp.chunk ++ ReadResp.err e :: rest) =
        RResult.err e rest ∧
      ReadBytesExt.read_i64 t (pre.map ReadResp.chunk ++ ReadResp.err e :: rest) =
        RResult.err e rest ∧
      ReadBytesExt.read_f64 t (pre.map ReadResp.chunk ++ ReadResp.err e :: rest) =
        RResult.err e rest) ∧
    ((pre.map List.length).sum < nb →
      ReadBytesExt.read_uint t nb (pre.map ReadResp.chunk ++ ReadResp.err e :: rest) =
        RResult.err e rest ∧
      ReadBytesExt.read_int t nb (pre.map ReadResp.chunk ++ ReadResp.err e :: rest) =
        RResult.err e rest) := by
  have hw : ∀ w : Nat, (pre.map List.length).sum < w →
      read_full (pre.map ReadResp.chunk ++ ReadResp.err e :: rest)
        (List.replicate w 0) 0 = some (Except.error e, rest) := fun w hwlt =>
    read_full_error_before_fill pre (List.replicate w 0) 0 e rest (by simp [hwlt])
  refine ⟨fun h => ⟨?_, ?_⟩, fun h => ⟨?_, ?_, ?_⟩, fun h => ⟨?_, ?_, ?_⟩,
    fun h => ⟨?_, ?_⟩⟩
  · unfold ReadBytesExt.read_u16; rw [hw 2 h]
  · unfold ReadBytesExt.read_i16; rw [hw 2 h]
  · unfold ReadBytesExt.read_u32; rw [hw 4 h]
  · unfold ReadBytesExt.read_i32; rw [hw 4 h]
  · unfold ReadBytesExt.read_f32; rw [hw 4 h]
  · unfold ReadBytesExt.read_u64; rw [hw 8 h]
  · unfold ReadBytesExt.read_i64; rw [hw 8 h]
  · unfold ReadBytesExt.read_f64; rw [hw 8 h]
  · unfold ReadBytesExt.read_uint readUintScratch
    rw [if_pos hnb8, hw nb h]
  · unfold ReadBytesExt.read_int readUintScratch
    rw [if_pos hnb8, hw nb h]

/-- C4 witness: read_u64 fails with error 7 after five bytes were already
delivered over two calls. -/
theorem claim_C4_witness :
    ReadBytesExt.read_u64 Endian.big
      ([[1, 2, 3], [4, 5]].map ReadResp.chunk ++ ReadResp.err 7 :: []) =
      RResult.err 7 [] :=
  ((claim_C4_error_propagation Endian.big [[1, 2, 3], [4, 5]] 7 [] 2
    (by decide)).2.2.1 (by decide)).1

/-- C5: for every way the collaborator spreads the required bytes over
multiple successful read calls — any sequence of nonempty deliveries
whose concatenation has the operation's width, one byte per call being
the special case of singleton deliveries — every multi-byte stream read
operation succeeds with the same decoded value as a collaborator that
delivers all bytes in a single call; shown for all ten operations. -/
theorem claim_C5_chunked_delivery (t : Endian) (cs2 cs4 cs8 csn : List (List Nat))
    (nb : Nat)
    (hne2 : ∀ c ∈ cs2, c ≠ []) (h2 : cs2.flatten.length = 2)
    (hne4 : ∀ c ∈ cs4, c ≠ []) (h4 : cs4.flatten.length = 4)
    (hne8 : ∀ c ∈ cs8, c ≠ []) (h8 : cs8.flatten.length = 8)
    (hnb1 : 1 ≤ nb) (hnb8 : nb ≤ 8)
    (hnen : ∀ c ∈ csn, c ≠ []) (hn : csn.flatten.length = nb) :
    (ReadBytesExt.read_u16 t (cs2.map ReadResp.chunk) =
        RResult.ok (ByteOrder.read_u16 t cs2.flatten) [] ∧
      ReadBytesExt.read_u16 t [ReadResp.chunk cs2.flatten] =
        RResult.ok (ByteOrder.read_u16 t cs2.flatten) []) ∧
    (ReadBytesExt.read_i16 t (cs2.map ReadResp.chunk) =
        RResult.ok (ByteOrder.read_i16 t cs2.flatten) [] ∧
      ReadBytesExt.read_i16 t [ReadResp.chunk cs2.flatten] =
        RResult.ok (ByteOrder.read_i16 t cs2.flatten) []) ∧
    (ReadBytesExt.read_u32 t (cs4.map ReadResp.chunk) =
        RResult.ok (ByteOrder.read_u32 t cs4.flatten) [] ∧
      ReadBytesExt.read_u32 t [ReadResp.chunk cs4.flatten] =
        RResult.ok (ByteOrder.read_u32 t cs4.flatten) []) ∧
    (ReadBytesExt.read_i32 t (cs4.map ReadResp.chunk) =
        RResult.ok (ByteOrder.read_i32 t cs4.flatten) [] ∧
      ReadBytesExt.read_i32 t [ReadResp.chunk cs4.flatten] =
        RResult.ok (ByteOrder.read_i32 t cs4.flatten) []) ∧
    (ReadBytesExt.read_f32 t (cs4.map ReadResp.chunk) =
        RResult.ok (ByteOrder.read_f32 t cs4.flatten) [] ∧
      ReadBytesExt.read_f32 t [ReadResp.chunk cs4.flatten] =
        RResult.ok (ByteOrder.read_f32 t cs4.flatten) []) ∧
    (ReadBytesExt.read_u64 t (cs8.map ReadResp.chunk) =
        RResult.ok (ByteOrder.read_u64 t cs8.flatten) [] ∧
      ReadBytesExt.read_u64 t [ReadResp.chunk cs8.flatten] =
        RResult.ok (ByteOrder.read_u64 t cs8.flatten) []) ∧
    (ReadBytesExt.read_i64 t (cs8.map ReadResp.chunk) =
        RResult.ok (ByteOrder.read_i64 t cs8.flatten) [] ∧
      ReadBytesExt.read_i64 t [ReadResp.chunk cs8.flatten] =
        RResult.ok (ByteOrder.read_i64 t cs8.flatten) []) ∧
    (ReadBytesExt.read_f64 t (cs8.map ReadResp.chunk) =
        RResult.ok (ByteOrder.read_f64 t cs8.flatten) [] ∧
      ReadBytesExt.read_f64 t [ReadResp.chunk cs8.flatten] =
        RResult.ok (ByteOrder.read_f64 t cs8.flatten) []) ∧
    (ReadBytesExt.read_uint t nb (csn.map ReadResp.chunk) =
        RResult.ok (ByteOrder.read_uint t
          (csn.flatten ++ List.replicate (8 - nb) 0) nb) [] ∧
      ReadBytesExt.read_uint t nb [ReadResp.chunk csn.flatten] =
        RResult.ok (ByteOrder.read_uint t
          (csn.flatten ++ List.replicate (8 - nb) 0) nb) []) ∧
    (ReadBytesExt.read_int t nb (csn.map ReadResp.chunk) =
        RResult.ok (ByteOrder.read_int t
          (csn.flatten ++ List.replicate (8 - nb) 0) nb) [] ∧
      ReadBytesExt.read_int t nb [ReadResp.chunk csn.flatten] =
        RResult.ok (ByteOrder.read_int t
          (csn.flatten ++ List.replicate (8 - nb) 0) nb) []) := by
  have hsingle : ∀ (bs : List Nat) (w : Nat), bs.length = w → 0 < w →
      read_full [ReadResp.chunk bs] (List.replicate w 0) 0 =
        some (Except.ok bs, []) := fun bs w hwl hw0 =>
    read_full_single_chunk bs (List.replicate w 0) (by simp [hwl]) (by simp [hw0])
  refine ⟨⟨?_, ?_⟩, ⟨?_, ?_⟩, ⟨?_, ?_⟩, ⟨?_, ?_⟩, ⟨?_, ?_⟩, ⟨?_, ?_⟩, ⟨?_, ?_⟩,
    ⟨?_, ?_⟩, ⟨?_, ?_⟩, ⟨?_, ?_⟩⟩
  · unfold ReadBytesExt.read_u16; rw [read_full_chunks_fill cs2 2 hne2 h2]
  · unfold ReadBytesExt.read_u16; rw [hsingle cs2.flatten 2 h2 (by omega)]
  · unfold ReadBytesExt.read_i16; rw [read_full_chunks_fill cs2 2 hne2 h2]
  · unfold ReadBytesExt.read_i16; rw [hsingle cs2.flatten 2 h2 (by omega)]
  · unfold ReadBytesExt.read_u32; rw [read_full_chunks_fill cs4 4 hne4 h4]
  · unfold ReadBytesExt.read_u32; rw [hsingle cs4.flatten 4 h4 (by omega)]
  · unfold ReadBytesExt.read_i32; rw [read_full_chunks_fill cs4 4 hne4 h4]
  · unfold ReadBytesExt.read_i32; rw [hsingle cs4.flatten 4 h4 (by omega)]
  · unfold ReadBytesExt.read_f32; rw [read_full_chunks_fill cs4 4 hne4 h4]
  · unfold ReadBytesExt.read_f32; rw [hsingle cs4.flatten 4 h4 (by omega)]
  · unfold ReadBytesExt.read_u64; rw [read_full_chunks_fill cs8 8 hne8 h8]
  · unfold ReadBytesExt.read_u64; rw [hsingle cs8.flatten 8 h8 (by omega)]
  · unfold ReadBytesExt.read_i64; rw [read_full_chunks_fill cs8 8 hne8 h8]
  · unfold ReadBytesExt.read_i64; rw [hsingle cs8.flatten 8 h8 (by omega)]
  · unfold ReadBytesExt.read_f64; rw [read_full_chunks_fill cs8 8 hne8 h8]
  · unfold ReadBytesExt.read_f64; rw [hsingle cs8.flatten 8 h8 (by omega)]
  · unfold ReadBytesExt.read_uint readUintScratch
    rw [if_pos hnb8, read_full_chunks_fill csn nb hnen hn]
  · unfold ReadBytesExt.read_uint readUintScratch
    rw [if_pos hnb8, hsingle csn.flatten nb hn (by omega)]
  · unfold ReadBytesExt.read_int readUintScratch
    rw [if_pos hnb8, read_full_chunks_fill csn nb hnen hn]
  · unfold ReadBytesExt.read_int readUintScratch
    rw [if_pos hnb8, hsingle csn.flatten nb hn (by omega)]

/-- C5 witness: read_u32 with the four bytes delivered as two 2-byte
calls decodes to the same big-endian value as a single 4-byte delivery
(the other widths use a one-per-call split and a 3+2+3 split). -/
theorem claim_C5_witness :
    ReadBytesExt.read_u32 Endian.big
      ([[1, 2], [3, 4]].map ReadResp.chunk) =
      RResult.ok (ByteOrder.read_u32 Endian.big [[1, 2], [3, 4]].flatten) [] :=
  (claim_C5_chunked_delivery Endian.big [[2], [5]] [[1, 2], [3, 4]]
    [[1, 2, 3], [4, 5], [6, 7, 8]] [[255]] 1 (by decide) (by decide) (by decide)
    (by decide) (by decide) (by decide) (by decide) (by decide) (by decide)
    (by decide)).2.2.1.1

/-- C6: `read_int` with nbytes = 1 on the byte 0xFF yields -1 while
`read_uint` yields 255; in general the signed variable-width decode
sign-extends from bit `nbytes*8 - 1`: its result lies in the signed
nbytes-wide range and is congruent to the unsigned decode modulo
`2^(8*nbytes)` (so negative values of the declared width decode to the
mathematically equal negative 64-bit value). -/
theorem claim_C6_sign_extension (t : Endian) (nb : Nat) (buf : List Nat)
    (h1 : 1 ≤ nb) (_h8 : nb ≤ 8) (hbytes : ∀ b ∈ buf, b < 256) :
    ReadBytesExt.read_int Endian.big 1 [ReadResp.chunk [255]] = RResult.ok (-1) [] ∧
    ReadBytesExt.read_uint Endian.big 1 [ReadResp.chunk [255]] = RResult.ok 255 [] ∧
    -((2 : Int) ^ (8 * nb - 1)) ≤ ByteOrder.read_int t buf nb ∧
    ByteOrder.read_int t buf nb < (2 : Int) ^ (8 * nb - 1) ∧
    ByteOrder.read_int t buf nb % ((2 : Int) ^ (8 * nb)) =
      (ByteOrder.read_uint t buf nb : Int) % (2 : Int) ^ (8 * nb) := by
  have hu := read_uint_lt t buf nb hbytes
  have hb := toSigned_bounds nb (ByteOrder.read_uint t buf nb) h1 hu
  exact ⟨by decide, by decide, hb.1, hb.2.1, hb.2.2⟩

/-- C6 witness at nbytes = 1, buffer [0xFF]. -/
theorem claim_C6_witness :
    ReadBytesExt.read_int Endian.big 1 [ReadResp.chunk [255]] = RResult.ok (-1) [] :=
  (claim_C6_sign_extension Endian.big 1 [255] (by decide) (by decide) (by decide)).1

/-- C8: every stream write operation encodes into a local buffer of
exactly the value's byte width via the matching ByteOrder encode and
hands that full buffer to the collaborator's write-all in a single call
(exactly one response of the sink's plan is consumed): a failing
collaborator response is returned verbatim, and a successful one appends
exactly the whole encoded buffer — there is no partial-success result. -/
theorem claim_C8_write_single_call (t : Endian)
    (v8 v16 v32 v64 b32 b64 : Nat) (s8 s16 s32 s64 : Int)
    (sent : List Nat) (bplan : List (Option Nat)) (e : Nat) :
    (WriteBytesExt.write_u8 v8 ⟨sent, some e :: bplan⟩ = Except.error e ∧
      WriteBytesExt.write_u8 v8 ⟨sent, none :: bplan⟩ =
        Except.ok ⟨sent ++ [v8], bplan⟩ ∧
      ([v8] : List Nat).length = 1) ∧
    (WriteBytesExt.write_i8 s8 ⟨sent, some e :: bplan⟩ = Except.error e ∧
      WriteBytesExt.write_i8 s8 ⟨sent, none :: bplan⟩ =
        Except.ok ⟨sent ++ [toUnsigned 1 s8], bplan⟩ ∧
      ([toUnsigned 1 s8] : List Nat).length = 1) ∧
    (WriteBytesExt.write_u16 t v16 ⟨sent, some e :: bplan⟩ = Except.error e ∧
      WriteBytesExt.write_u16 t v16 ⟨sent, none :: bplan⟩ =
        Except.ok ⟨sent ++ ByteOrder.write_u16 t v16, bplan⟩ ∧
      (ByteOrder.write_u16 t v16).length = 2) ∧
    (WriteBytesExt.write_i16 t s16 ⟨sent, some e :: bplan⟩ = Except.error e ∧
      WriteBytesExt.write_i16 t s16 ⟨sent, none :: bplan⟩ =
        Except.ok ⟨sent ++ ByteOrder.write_i16 t s16, bplan⟩ ∧
      (ByteOrder.write_i16 t s16).length = 2) ∧
    (WriteBytesExt.write_u32 t v32 ⟨sent, some e :: bplan⟩ = Except.error e ∧
      WriteBytesExt.write_u32 t v32 ⟨sent, none :: bplan⟩ =
        Except.ok ⟨sent ++ ByteOrder.write_u32 t v32, bplan⟩ ∧
      (ByteOrder.write_u32 t v32).length = 4) ∧
    (WriteBytesExt.write_i32 t s32 ⟨sent, some e :: bplan⟩ = Except.error e ∧
      WriteBytesExt.write_i32 t s32 ⟨sent, none :: bplan⟩ =
        Except.ok ⟨sent ++ ByteOrder.write_i32 t s32, bplan⟩ ∧
      (ByteOrder.write_i32 t s32).length = 4) ∧
    (WriteBytesExt.write_u64 t v64 ⟨sent, some e :: bplan⟩ = Except.error e ∧
      WriteBytesExt.write_u64 t v64 ⟨sent, none :: bplan⟩ =
        Except.ok ⟨sent ++ ByteOrder.write_u64 t v64, bplan⟩ ∧
      (ByteOrder.write_u64 t v64).length = 8) ∧
    (WriteBytesExt.write_i64 t s64 ⟨sent, some e :: bplan⟩ = Except.error e ∧
      WriteBytesExt.write_i64 t s64 ⟨sent, none :: bplan⟩ =
        Except.ok ⟨sent ++ ByteOrder.write_i64 t s64, bplan⟩ ∧
      (ByteOrder.write_i64 t s64).length = 8) ∧
    (WriteBytesExt.write_f32 t b32 ⟨sent, some e :: bplan⟩ = Except.error e ∧
      WriteBytesExt.write_f32 t b32 ⟨sent, none :: bplan⟩ =
        Except.ok ⟨sent ++ ByteOrder.write_f32 t b32, bplan⟩ ∧
      (ByteOrder.write_f32 t b32).length = 4) ∧
    (WriteBytesExt.write_f64 t b64 ⟨sent, some e :: bplan⟩ = Except.error e ∧
      WriteBytesExt.write_f64 t b64 ⟨sent, none :: bplan⟩ =
        Except.ok ⟨sent ++ ByteOrder.write_f64 t b64, bplan⟩ ∧
      (ByteOrder.write_f64 t b64).length = 8) :=
  ⟨⟨rfl, rfl, rfl⟩,
   ⟨rfl, rfl, rfl⟩,
   ⟨rfl, rfl, writeU_length t 2 v16⟩,
   ⟨rfl, rfl, writeU_length t 2 (toUnsigned 2 s16)⟩,
   ⟨rfl, rfl, writeU_length t 4 v32⟩,
   ⟨rfl, rfl, writeU_length t 4 (toUnsigned 4 s32)⟩,
   ⟨rfl, rfl, writeU_length t 8 v64⟩,
   ⟨rfl, rfl, writeU_length t 8 (toUnsigned 8 s64)⟩,
   ⟨rfl, rfl, writeU_length t 4 b32⟩,
   ⟨rfl, rfl, writeU_length t 8 b64⟩⟩

/-- C1: for every numeric value of each supported type (u16, i16, u32,
i32, u64, i64, uint/int of nbytes in [1,8], f32, f64 — floats represented
by their IEEE754 bit patterns, so NaN payloads and signed zero are the
patterns themselves) and each endianness variant, writing the value into
an empty infallible in-memory sink produces exactly the ByteOrder
encoding, and reading that encoding back with the matching stream read
operation of the same variant yields the value bit-for-bit. -/
theorem claim_C1_roundtrip (t : Endian)
    (v16 v32 v64 b32 b64 nb vu : Nat) (s16 s32 s64 sn : Int)
    (h16 : v16 < 2 ^ 16) (h32 : v32 < 2 ^ 32) (h64 : v64 < 2 ^ 64)
    (hb32 : b32 < 2 ^ 32) (hb64 : b64 < 2 ^ 64)
    (hs16l : -((2 : Int) ^ 15) ≤ s16) (hs16u : s16 < 2 ^ 15)
    (hs32l : -((2 : Int) ^ 31) ≤ s32) (hs32u : s32 < 2 ^ 31)
    (hs64l : -((2 : Int) ^ 63) ≤ s64) (hs64u : s64 < 2 ^ 63)
    (hnb1 : 1 ≤ nb) (hnb8 : nb ≤ 8) (hvu : vu < 2 ^ (8 * nb))
    (hsnl : -((2 : Int) ^ (8 * nb - 1)) ≤ sn) (hsnu : sn < 2 ^ (8 * nb - 1)) :
    (WriteBytesExt.write_u16 t v16 ⟨[], []⟩ =
        Except.ok ⟨ByteOrder.write_u16 t v16, []⟩ ∧
      ReadBytesExt.read_u16 t [ReadResp.chunk (ByteOrder.write_u16 t v16)] =
        RResult.ok v16 []) ∧
    (WriteBytesExt.write_i16 t s16 ⟨[], []⟩ =
        Except.ok ⟨ByteOrder.write_i16 t s16, []⟩ ∧
      ReadBytesExt.read_i16 t [ReadResp.chunk (ByteOrder.write_i16 t s16)] =
        RResult.ok s16 []) ∧
    (WriteBytesExt.write_u32 t v32 ⟨[], []⟩ =
        Except.ok ⟨ByteOrder.write_u32 t v32, []⟩ ∧
      ReadBytesExt.read_u32 t [ReadResp.chunk (ByteOrder.write_u32 t v32)] =
        RResult.ok v32 []) ∧
    (WriteBytesExt.write_i32 t s32 ⟨[], []⟩ =
        Except.ok ⟨ByteOrder.write_i32 t s32, []⟩ ∧
      ReadBytesExt.read_i32 t [ReadResp.chunk (ByteOrder.write_i32 t s32)] =
        RResult.ok s32 []) ∧
    (WriteBytesExt.write_u64 t v64 ⟨[], []⟩ =
        Except.ok ⟨ByteOrder.write_u64 t v64, []⟩ ∧
      ReadBytesExt.read_u64 t [ReadResp.chunk (ByteOrder.write_u64 t v64)] =
        RResult.ok v64 []) ∧
    (WriteBytesExt.write_i64 t s64 ⟨[], []⟩ =
        Except.ok ⟨ByteOrder.write_i64 t s64, []⟩ ∧
      ReadBytesExt.read_i64 t [ReadResp.chunk (ByteOrder.write_i64 t s64)] =
        RResult.ok s64 []) ∧
    (WriteBytesExt.write_f32 t b32 ⟨[], []⟩ =
        Except.ok ⟨ByteOrder.write_f32 t b32, []⟩ ∧
      ReadBytesExt.read_f32 t [ReadResp.chunk (ByteOrder.write_f32 t b32)] =
        RResult.ok b32 []) ∧
    (WriteBytesExt.write_f64 t b64 ⟨[], []⟩ =
        Except.ok ⟨ByteOrder.write_f64 t b64, []⟩ ∧
      ReadBytesExt.read_f64 t [ReadResp.chunk (ByteOrder.write_f64 t b64)] =
        RResult.ok b64 []) ∧
    (WriteBytesExt.write_uint t nb vu ⟨[], []⟩ =
        Except.ok ⟨ByteOrder.write_uint t nb vu, []⟩ ∧
      ReadBytesExt.read_uint t nb [ReadResp.chunk (ByteOrder.write_uint t nb vu)] =
        RResult.ok vu []) ∧
    (WriteBytesExt.write_int t nb sn ⟨[], []⟩ =
        Except.ok ⟨ByteOrder.write_int t nb sn, []⟩ ∧
      ReadBytesExt.read_int t nb [ReadResp.chunk (ByteOrder.write_int t nb sn)] =
        RResult.ok sn []) := by
  have hv16 : v16 < 256 ^ 2 := by norm_num at h16 ⊢; exact h16
  have hv32 : v32 < 256 ^ 4 := by norm_num at h32 ⊢; exact h32
  have hv64 : v64 < 256 ^ 8 := by norm_num at h64 ⊢; exact h64
  have hvb32 : b32 < 256 ^ 4 := by norm_num at hb32 ⊢; exact hb32
  have hvb64 : b64 < 256 ^ 8 := by norm_num at hb64 ⊢; exact hb64
  have hu16 : toUnsigned 2 s16 < 256 ^ 2 := by
    have := toUnsigned_lt 2 s16; norm_num at this ⊢; exact this
  have hu32 : toUnsigned 4 s32 < 256 ^ 4 := by
    have := toUnsigned_lt 4 s32; norm_num at this ⊢; exact this
  have hu64 : toUnsigned 8 s64 < 256 ^ 8 := by
    have := toUnsigned_lt 8 s64; norm_num at this ⊢; exact this
  have hvun : vu < 256 ^ nb := by rw [pow256_eq_pow2]; exact hvu
  have hun : toUnsigned nb sn < 256 ^ nb := by
    rw [pow256_eq_pow2]; exact toUnsigned_lt nb sn
  refine ⟨⟨rfl, ?_⟩, ⟨rfl, ?_⟩, ⟨rfl, ?_⟩, ⟨rfl, ?_⟩, ⟨rfl, ?_⟩, ⟨rfl, ?_⟩,
    ⟨rfl, ?_⟩, ⟨rfl, ?_⟩, ⟨rfl, ?_⟩, ⟨rfl, ?_⟩⟩
  · simp only [ReadBytesExt.read_u16, ByteOrder.write_u16]
    rw [read_full_enc t 2 v16 (by omega)]
    simp only [ByteOrder.read_u16]
    rw [readU_writeU t 2 v16 hv16]
  · simp only [ReadBytesExt.read_i16, ByteOrder.write_i16, ByteOrder.write_u16]
    rw [read_full_enc t 2 (toUnsigned 2 s16) (by omega)]
    simp only [ByteOrder.read_i16, ByteOrder.read_u16]
    rw [readU_writeU t 2 (toUnsigned 2 s16) hu16,
      toSigned_toUnsigned 2 s16 (by omega) hs16l hs16u]
  · simp only [ReadBytesExt.read_u32, ByteOrder.write_u32]
    rw [read_full_enc t 4 v32 (by omega)]
    simp only [ByteOrder.read_u32]
    rw [readU_writeU t 4 v32 hv32]
  · simp only [ReadBytesExt.read_i32, ByteOrder.write_i32, ByteOrder.write_u32]
    rw [read_full_enc t 4 (toUnsigned 4 s32) (by omega)]
    simp only [ByteOrder.read_i32, ByteOrder.read_u32]
    rw [readU_writeU t 4 (toUnsigned 4 s32) hu32,
      toSigned_toUnsigned 4 s32 (by omega) hs32l hs32u]
  · simp only [ReadBytesExt.read_u64, ByteOrder.write_u64]
    rw [read_full_enc t 8 v64 (by omega)]
    simp only [ByteOrder.read_u64]
    rw [readU_writeU t 8 v64 hv64]
  · simp only [ReadBytesExt.read_i64, ByteOrder.write_i64, ByteOrder.write_u64]
    rw [read_full_enc t 8 (toUnsigned 8 s64) (by omega)]
    simp only [ByteOrder.read_i64, ByteOrder.read_u64]
    rw [readU_writeU t 8 (toUnsigned 8 s64) hu64,
      toSigned_toUnsigned 8 s64 (by omega) hs64l hs64u]
  · simp only [ReadBytesExt.read_f32, ByteOrder.write_f32, ByteOrder.write_u32]
    rw [read_full_enc t 4 b32 (by omega)]
    simp only [ByteOrder.read_f32, ByteOrder.read_u32]
    rw [readU_writeU t 4 b32 hvb32]
  · simp only [ReadBytesExt.read_f64, ByteOrder.write_f64, ByteOrder.write_u64]
    rw [read_full_enc t 8 b64 (by omega)]
    simp only [ByteOrder.read_f64, ByteOrder.read_u64]
    rw [readU_writeU t 8 b64 hvb64]
  · simp only [ReadBytesExt.read_uint, readUintScratch, ByteOrder.write_uint]
    rw [if_pos hnb8, read_full_enc t nb vu (by omega)]
    show RResult.ok (ByteOrder.read_uint t
      (ByteOrder.writeU t nb vu ++ List.replicate (8 - nb) 0) nb) [] =
      RResult.ok vu []
    rw [read_uint_writeU t nb vu hvun]
  · simp only [ReadBytesExt.read_int, readUintScratch, ByteOrder.write_int,
      ByteOrder.write_uint]
    rw [if_pos hnb8, read_full_enc t nb (toUnsigned nb sn) (by omega)]
    show RResult.ok (ByteOrder.read_int t
      (ByteOrder.writeU t nb (toUnsigned nb sn) ++ List.replicate (8 - nb) 0) nb) [] =
      RResult.ok sn []
    simp only [ByteOrder.read_int]
    rw [read_uint_writeU t nb (toUnsigned nb sn) hun,
      toSigned_toUnsigned nb sn hnb1 hsnl hsnu]

/-- C1 witness: big-endian round trips at u16 = 517, i16 = -1,
u32 = 70000, i32 = -2, u64 = 5, i64 = -3, f32 bits = 0x7FC00001 (a NaN
payload), f64 bits = 0x7FF8000000000001, uint nbytes = 3 at 0xABCDEF,
int nbytes = 3 at -1. -/
theorem claim_C1_witness :
    WriteBytesExt.write_u16 Endian.big 517 ⟨[], []⟩ =
      Except.ok ⟨ByteOrder.write_u16 Endian.big 517, []⟩ ∧
    ReadBytesExt.read_u16 Endian.big
      [ReadResp.chunk (ByteOrder.write_u16 Endian.big 517)] =
      RResult.ok 517 [] :=
  (claim_C1_roundtrip Endian.big 517 70000 5 2143289345 9221120237041090561 3
    11259375 (-1) (-2) (-3) (-1) (by norm_num) (by norm_num) (by norm_num)
    (by norm_num) (by norm_num) (by norm_num) (by norm_num) (by norm_num)
    (by norm_num) (by norm_num) (by norm_num) (by norm_num) (by norm_num)
    (by norm_num) (by norm_num) (by norm_num)).1
